import Mathlib

/-!
Shallow embedding of the TrackMIDA MIDI-to-MIDA converter (midi_to_mida.py).
The core pipeline is embedded function by function: message classification,
pitch naming, velocity classification, the pooled drum-timeline encoder, the
per-track melodic encoder, and the document assembler.  A Python set of
integer pitches is represented canonically as a strictly sorted list of
naturals, so that set insertion, removal, equality and `sorted(...)` are all
computable and order-independent exactly as in the source.
-/

namespace TrackMIDA

/-- Kind of a raw MIDI message, as distinguished by `msg.type` in the source;
`other` stands for every type that is neither note_on nor note_off. -/
inductive MsgType where
  | note_on
  | note_off
  | other
deriving DecidableEq

/-- A raw timed message: delta time, type, note, velocity and channel.
`hasattr(msg, 'channel')` is modelled by the channel being `some`. -/
structure Msg where
  time : Nat
  type : MsgType
  note : Nat
  velocity : Nat
  channel : Option Nat
deriving DecidableEq

/-- Lines 7-12: a track is a drum track iff some note_on or note_off message
in it carries channel 9. -/
def is_drum_track (track : List Msg) : Bool :=
  track.any (fun m =>
    decide ((m.type = MsgType.note_on ∨ m.type = MsgType.note_off) ∧ m.channel = some 9))

/-- Lines 14-19: numeric pitch to MIDA pitch name, e.g. 60 to C4, 0 to C-1.
The source's single 12-entry table is written here as two halves. -/
def midi_note_to_mida (note : Nat) : String :=
  let note_names := ["C", "C#", "D", "D#", "E", "F"]
                    ++ ["F#", "G", "G#", "A", "A#", "B"]
  let octave : Int := (note : Int) / 12 - 1
  note_names.getD (note % 12) "" ++ toString octave

/-- Lines 21-22: the drum grid slot width. -/
def quantize_ticks (ticks_per_beat : Nat) (eighth : Bool) : Nat :=
  if eighth then ticks_per_beat / 2 else ticks_per_beat

/-- The melodic grid slot width computed at line 81. -/
def sixteenth_ticks (ticks_per_beat : Nat) : Nat :=
  ticks_per_beat / 4

/-- Lines 24-30: classify a velocity as accented, soft or normal. -/
def velocity_to_typeset (velocity : Nat) : String :=
  if velocity ≥ 110 then "^|"
  else if velocity ≤ 40 then "v|"
  else "*|"

/-- Python's sep.join over a list of strings. -/
def joinSep (sep : String) : List String → String
  | [] => ""
  | [x] => x
  | x :: xs => x ++ sep ++ joinSep sep xs

/-- Absolute-time accumulation of per-message delta times (lines 36-38, 82-83):
each message paired with its accumulated absolute tick. -/
def absMsgs (t : Nat) : List Msg → List (Nat × Msg)
  | [] => []
  | m :: ms => (t + m.time, m) :: absMsgs (t + m.time) ms

/-- A pooled drum attack event: pitch, absolute tick, velocity. -/
structure DrumEv where
  note : Nat
  time : Nat
  velocity : Nat
deriving DecidableEq

/-- Lines 34-40: every positive-velocity note_on on channel 9, pooled across
all tracks in encounter order. -/
def drumEventList (tracks : List (List Msg)) : List DrumEv :=
  (tracks.map (fun track =>
    (absMsgs 0 track).filterMap (fun tm =>
      if tm.2.type = MsgType.note_on ∧ tm.2.channel = some 9 ∧ tm.2.velocity > 0 then
        some ⟨tm.2.note, tm.1, tm.2.velocity⟩
      else none))).flatten

/-- Insertion into a strictly sorted list, ignoring duplicates: the canonical
representation of a Python set of ints. -/
def insertSorted (x : Nat) : List Nat → List Nat
  | [] => [x]
  | y :: ys =>
    if x < y then x :: y :: ys
    else if x = y then y :: ys
    else y :: insertSorted x ys

/-- Line 53: `sorted(drum_events)`, the distinct drum pitches ascending. -/
def drumKeys (tracks : List (List Msg)) : List Nat :=
  ((drumEventList tracks).map (fun e => e.note)).foldr insertSorted []

/-- The drum_events dict entry for one pitch (line 40), in append order. -/
def eventsFor (tracks : List (List Msg)) (note : Nat) : List DrumEv :=
  (drumEventList tracks).filter (fun e => e.note == note)

/-- Lines 55-58: the per-pitch timeline; slot i holds the velocities landing
in slot i, in event order. -/
def drumTimeline (evs : List DrumEv) (eighth_ticks slot_count : Nat) : List (List Nat) :=
  (List.range slot_count).map (fun s =>
    (evs.filter (fun e => e.time / eighth_ticks == s)).map (fun e => e.velocity))

/-- Lines 61-69: render one drum slot. -/
def drumSlotToken (velocities : List Nat) : String :=
  match velocities with
  | [] => "_"
  | [v] => velocity_to_typeset v
  | vs => "\x7b" ++ joinSep " " (vs.map velocity_to_typeset) ++ "\x7d"

/-- Lines 70-72 and 119-120: pop trailing tokens equal to `c`. -/
def trimTrailing (tokens : List String) (c : String) : List String :=
  (tokens.reverse.dropWhile (fun t => t == c)).reverse

/-- Lines 59-75: one pitch's timeline rendered as a drum audicle; `none` when
every slot is a rest. -/
def drumTimelineToAudicle (timeline : List (List Nat)) : Option String :=
  let tokens := trimTrailing (timeline.map drumSlotToken) "_"
  if tokens = [] then none
  else some ("(" ++ joinSep " " tokens ++ ")")

/-- Lines 32-76: the drum audicles, one per surviving pitch, ascending. -/
def extract_drum_audicles (tracks : List (List Msg)) (ticks_per_beat : Nat) : List String :=
  let evs := drumEventList tracks
  if evs = [] then []
  else
    let eighth_ticks := quantize_ticks ticks_per_beat true
    let total_ticks := (evs.map (fun e => e.time)).foldl max 0
    let slot_count := (total_ticks + eighth_ticks - 1) / eighth_ticks + 1
    (drumKeys tracks).filterMap (fun note =>
      drumTimelineToAudicle (drumTimeline (eventsFor tracks note) eighth_ticks slot_count))

/-- Kind of a melodic event: attack or release. -/
inductive EvKind where
  | on
  | off
deriving DecidableEq

/-- A melodic event: absolute tick, pitch, kind. -/
structure Ev where
  time : Nat
  note : Nat
  kind : EvKind
deriving DecidableEq

/-- Lines 84-87: classify one absolute-timed message as an attack, a release,
or nothing. -/
def msgToEv (tm : Nat × Msg) : Option Ev :=
  if tm.2.type = MsgType.note_on ∧ tm.2.velocity > 0 then
    some ⟨tm.1, tm.2.note, EvKind.on⟩
  else if tm.2.type = MsgType.note_off ∨ (tm.2.type = MsgType.note_on ∧ tm.2.velocity = 0) then
    some ⟨tm.1, tm.2.note, EvKind.off⟩
  else none

/-- Lines 79-87: the melodic event stream of one track, in message order. -/
def trackEvents (track : List Msg) : List Ev :=
  (absMsgs 0 track).filterMap msgToEv

/-- The total delta time of a message list. -/
def deltaSum (l : List Msg) : Nat :=
  (l.map (fun m => m.time)).sum

/-- Remove a pitch from the held set (`discard`, line 103). -/
def setErase (note : Nat) (active : List Nat) : List Nat :=
  active.filter (fun y => y != note)

/-- Lines 100-103: apply one event to the held-pitch set. -/
def applyEvent (active : List Nat) (e : Ev) : List Nat :=
  match e.kind with
  | EvKind.on => insertSorted e.note active
  | EvKind.off => setErase e.note active

/-- Lines 95-105: sweep the slots in order, consuming every still-unconsumed
event whose time is before the slot's end and snapshotting the held set. -/
def sweepSlots (st : Nat) : Nat → Nat → List Ev → List Nat → List (List Nat)
  | 0, _, _, _ => []
  | n + 1, slot, evs, active =>
    let slotEnd := slot * st + st
    let consumed := evs.takeWhile (fun e => decide (e.time < slotEnd))
    let rest := evs.dropWhile (fun e => decide (e.time < slotEnd))
    let active2 := consumed.foldl applyEvent active
    active2 :: sweepSlots st n (slot + 1) rest active2

/-- Lines 106-118: render the timeline, threading the previous slot's set. -/
def renderTokensAux (prev : List Nat) : List (List Nat) → List String
  | [] => []
  | notes :: rest =>
    (if notes = [] then "."
     else
       let token := joinSep "~" (notes.map midi_note_to_mida)
       if notes = prev ∧ notes ≠ [] then "-" else token) :: renderTokensAux notes rest

/-- Lines 106-118 with the initial empty previous set. -/
def renderTokens (timeline : List (List Nat)) : List String :=
  renderTokensAux [] timeline

/-- Lines 106-123: a melodic timeline rendered as an audicle; `none` when the
trimmed token list is empty. -/
def melodicTimelineToAudicle (timeline : List (List Nat)) : Option String :=
  let tokens := trimTrailing (renderTokens timeline) "."
  if tokens = [] then none
  else some ("*" ++ joinSep " " tokens ++ "*")

/-- Lines 88-123: the melodic encoding of an already-extracted event stream. -/
def eventsToAudicle (events : List Ev) (ticks_per_beat : Nat) : Option String :=
  if events = [] then none
  else
    let st := sixteenth_ticks ticks_per_beat
    let total_ticks := (events.map (fun e => e.time)).foldl max 0
    let slot_count := (total_ticks + st - 1) / st + 1
    melodicTimelineToAudicle (sweepSlots st slot_count 0 events [])

/-- Lines 78-123: one non-percussion track rendered as a melodic audicle. -/
def track_to_audicle (track : List Msg) (ticks_per_beat : Nat) : Option String :=
  eventsToAudicle (trackEvents track) ticks_per_beat

/-- Lines 143-154: melodic audicles of the non-drum tracks, in track order. -/
def melodicAudicles (tracks : List (List Msg)) (ticks_per_beat : Nat) : List String :=
  (tracks.filter (fun track => ! is_drum_track track)).filterMap
    (fun track => track_to_audicle track ticks_per_beat)

/-- Lines 156-168: assemble the output lines from the drum and melodic
audicle lists. -/
def assembleOutput (drum_audicles audicles : List String) : List String :=
  if audicles = [] ∧ drum_audicles = [] then ["// No tracks found."]
  else if audicles.length + drum_audicles.length = 1 then
    drum_audicles ++ [match audicles, drum_audicles with
                      | a :: _, _ => a
                      | [], d :: _ => d
                      | [], [] => ""]
  else ["`~#", "‘"] ++ drum_audicles ++ audicles ++ ["‘"]

/-- Line 169: the assembled document. -/
def mainOutput (tracks : List (List Msg)) (ticks_per_beat : Nat) : String :=
  joinSep "\n" (assembleOutput (extract_drum_audicles tracks ticks_per_beat)
                               (melodicAudicles tracks ticks_per_beat))

/-- A single percussion attack: pitch 38, velocity 80, channel 9, tick 0. -/
def drumHitTrack : List Msg := [⟨0, MsgType.note_on, 38, 80, some 9⟩]

/-- One melodic attack of pitch 60 at tick 0, released at tick 480. -/
def sustainTrack : List Msg :=
  [⟨0, MsgType.note_on, 60, 64, some 0⟩, ⟨480, MsgType.note_off, 60, 0, some 0⟩]

/-- A same-tick release-then-attack pair for the same pitch 60. -/
def swapTrackA : List Msg :=
  [⟨0, MsgType.note_off, 60, 0, none⟩, ⟨0, MsgType.note_on, 60, 64, none⟩]

/-- The same messages with the attack first. -/
def swapTrackB : List Msg :=
  [⟨0, MsgType.note_on, 60, 64, none⟩, ⟨0, MsgType.note_off, 60, 0, none⟩]

/-- A melodic stream starting with a release that was never attacked. -/
def unmatchedReleaseTrack : List Msg :=
  [⟨0, MsgType.note_off, 64, 0, none⟩, ⟨0, MsgType.note_on, 60, 64, none⟩,
   ⟨480, MsgType.note_off, 60, 0, none⟩]

/-- A message whose only channel-9 content is a non-note message. -/
def channel9OtherMsg : Msg := ⟨0, MsgType.other, 0, 0, some 9⟩

/-- The order-sensitivity property the spec claims for distinct pitches: some
pair of tracks, identical but for whether a same-tick release precedes or
follows a same-tick attack of a different pitch, renders differently. -/
def orderSensitiveDiffPitch : Prop :=
  ∃ (pre post : List Msg) (d va vb a b : Nat) (c1 c2 : Option Nat)
    (rT : MsgType) (tpb : Nat),
    a ≠ b ∧ 0 < vb ∧ (rT = MsgType.note_off ∨ (rT = MsgType.note_on ∧ va = 0)) ∧
    track_to_audicle (pre ++ ⟨d, rT, a, va, c1⟩ :: ⟨0, MsgType.note_on, b, vb, c2⟩ :: post) tpb ≠
    track_to_audicle (pre ++ ⟨d, MsgType.note_on, b, vb, c2⟩ :: ⟨0, rT, a, va, c1⟩ :: post) tpb

/-- C9: velocity_to_typeset returns the accented token for every velocity at
least 110, the soft token for every velocity at most 40, and the normal token
otherwise; in particular 109 and 41 are normal, 110 accented, 40 soft. -/
theorem velocity_thresholds (v : Nat) :
    (110 ≤ v → velocity_to_typeset v = "^|") ∧
    (v ≤ 40 → velocity_to_typeset v = "v|") ∧
    (40 < v → v < 110 → velocity_to_typeset v = "*|") ∧
    velocity_to_typeset 109 = "*|" ∧ velocity_to_typeset 110 = "^|" ∧
    velocity_to_typeset 41 = "*|" ∧ velocity_to_typeset 40 = "v|" := by
  refine ⟨?_, ?_, ?_, by decide, by decide, by decide, by decide⟩
  · intro h
    unfold velocity_to_typeset
    rw [if_pos h]
  · intro h
    unfold velocity_to_typeset
    rw [if_neg (by omega), if_pos h]
  · intro h1 h2
    unfold velocity_to_typeset
    rw [if_neg (by omega), if_neg (by omega)]

/-- Witness for C9 at the three boundary regions. -/
theorem velocity_thresholds_witness :
    velocity_to_typeset 110 = "^|" ∧ velocity_to_typeset 40 = "v|" ∧
    velocity_to_typeset 55 = "*|" :=
  ⟨(velocity_thresholds 110).1 (by decide),
   (velocity_thresholds 40).2.1 (by decide),
   (velocity_thresholds 55).2.2.1 (by decide) (by decide)⟩

/-- C2 counterexample: the claim that is_drum_track is true iff some message
carries channel 9 regardless of its type fails, because the code only looks
at note_on and note_off messages.  A track whose sole channel-9 message has
another type is classified non-percussion. -/
theorem drum_track_any_channel9_false :
    ¬ (∀ track : List Msg, is_drum_track track = true ↔ ∃ m ∈ track, m.channel = some 9) := by
  intro h
  exact absurd ((h [channel9OtherMsg]).mpr ⟨channel9OtherMsg, by simp, rfl⟩) (by decide)

/-- C2 amended: is_drum_track returns true iff some note_on or note_off
message in the track carries channel 9. -/
theorem drum_track_iff_note_msg_channel9 (track : List Msg) :
    is_drum_track track = true ↔
      ∃ m ∈ track, (m.type = MsgType.note_on ∨ m.type = MsgType.note_off) ∧
        m.channel = some 9 := by
  simp [is_drum_track, List.any_eq_true]

/-- C3 counterexample: resolution 1 is a positive integer, yet both slot
widths are zero there (and the melodic width is zero up to resolution 3). -/
theorem positive_resolution_widths_false :
    ¬ (∀ r : Nat, 0 < r → 0 < quantize_ticks r true ∧ 0 < sixteenth_ticks r) := by
  intro h
  exact absurd (h 1 (by decide)).1 (by decide)

/-- C3 amended: for every resolution at least 4 both slot widths — resolution
div 2 for percussion and resolution div 4 for melodic — are strictly
positive. -/
theorem widths_positive_of_four_le (r : Nat) (h : 4 ≤ r) :
    0 < quantize_ticks r true ∧ 0 < sixteenth_ticks r := by
  constructor
  · show 0 < (if true then r / 2 else r)
    simpa using Nat.div_pos (by omega) (by omega)
  · exact Nat.div_pos h (by omega)

/-- Witness for the amended C3 at the spec's example resolution 480. -/
theorem widths_positive_witness :
    0 < quantize_ticks 480 true ∧ 0 < sixteenth_ticks 480 :=
  widths_positive_of_four_le 480 (by decide)

/-- C10: a release event for a pitch absent from the held set leaves the set
unchanged, and the melodic encoder runs to completion on a stream that starts
with an unmatched release. -/
theorem unmatched_release_is_noop (active : List Nat) (t note : Nat)
    (h : note ∉ active) :
    applyEvent active ⟨t, note, EvKind.off⟩ = active ∧
    track_to_audicle unmatchedReleaseTrack 480 = some "*C4 - - -*" := by
  refine ⟨?_, by decide⟩
  show setErase note active = active
  unfold setErase
  rw [List.filter_eq_self]
  intro y hy
  simp only [bne_iff_ne, ne_eq]
  rintro rfl
  exact h hy

/-- Witness for C10: releasing pitch 62 while only 60 is held. -/
theorem unmatched_release_is_noop_witness :
    applyEvent [60] ⟨0, 62, EvKind.off⟩ = [60] ∧
    track_to_audicle unmatchedReleaseTrack 480 = some "*C4 - - -*" :=
  unmatched_release_is_noop [60] 0 62 (by decide)

theorem mem_insertSorted {a x : Nat} : ∀ {l : List Nat},
    a ∈ insertSorted x l ↔ a = x ∨ a ∈ l := by
  intro l
  induction l with
  | nil => simp [insertSorted]
  | cons y ys ih =>
    by_cases h1 : x < y
    · simp [insertSorted, h1]
    · by_cases h2 : x = y
      · subst h2
        have hstep : insertSorted x (x :: ys) = x :: ys := by
          unfold insertSorted
          rw [if_neg h1, if_pos rfl]
        rw [hstep]
        simp only [List.mem_cons]
        tauto
      · simp only [insertSorted, if_neg h1, if_neg h2, List.mem_cons, ih]
        tauto

theorem sorted_insertSorted (x : Nat) : ∀ {l : List Nat},
    l.Sorted (· < ·) → (insertSorted x l).Sorted (· < ·) := by
  intro l
  induction l with
  | nil => intro _; simp [insertSorted]
  | cons y ys ih =>
    intro hs
    rw [List.sorted_cons] at hs
    obtain ⟨hy, hys⟩ := hs
    by_cases h1 : x < y
    · simp only [insertSorted, if_pos h1]
      rw [List.sorted_cons]
      refine ⟨?_, List.sorted_cons.mpr ⟨hy, hys⟩⟩
      intro b hb
      rcases List.mem_cons.mp hb with rfl | hb2
      · exact h1
      · exact h1.trans (hy b hb2)
    · by_cases h2 : x = y
      · simp only [insertSorted, if_neg h1, if_pos h2]
        exact List.sorted_cons.mpr ⟨hy, hys⟩
      · simp only [insertSorted, if_neg h1, if_neg h2]
        rw [List.sorted_cons]
        refine ⟨?_, ih hys⟩
        intro b hb
        rcases mem_insertSorted.mp hb with rfl | hb2
        · omega
        · exact hy b hb2

theorem sorted_foldr_insertSorted (l : List Nat) :
    (l.foldr insertSorted []).Sorted (· < ·) := by
  induction l with
  | nil => simp
  | cons x xs ih => exact sorted_insertSorted x ih

/-- C8: the document transformation is a pure function — equal parsed inputs
give byte-identical documents — and the drum pitches are iterated in strictly
ascending numeric order rather than dictionary insertion order. -/
theorem deterministic_and_sorted_drum_order (t1 t2 : List (List Msg)) (r1 r2 : Nat)
    (ht : t1 = t2) (hr : r1 = r2) :
    mainOutput t1 r1 = mainOutput t2 r2 ∧ List.Sorted (· < ·) (drumKeys t1) := by
  subst ht
  subst hr
  exact ⟨rfl, sorted_foldr_insertSorted _⟩

/-- Witness for C8 on a two-pitch drum input. -/
theorem deterministic_and_sorted_drum_order_witness :
    mainOutput [drumHitTrack, [⟨0, MsgType.note_on, 36, 120, some 9⟩]] 480 =
      mainOutput [drumHitTrack, [⟨0, MsgType.note_on, 36, 120, some 9⟩]] 480 ∧
    List.Sorted (· < ·) (drumKeys [drumHitTrack, [⟨0, MsgType.note_on, 36, 120, some 9⟩]]) :=
  deterministic_and_sorted_drum_order _ _ _ _ rfl rfl

/-- C1: when the melodic audicle list is empty and exactly one drum audicle
survives, the assembled document is that drum line twice, newline-joined. -/
theorem single_drum_audicle_duplicated (tracks : List (List Msg)) (tpb : Nat)
    (d : String) (hd : extract_drum_audicles tracks tpb = [d])
    (hm : melodicAudicles tracks tpb = []) :
    mainOutput tracks tpb = d ++ "\n" ++ d := by
  unfold mainOutput
  rw [hd, hm]
  rfl

/-- Witness for C1: one percussion attack of pitch 38, velocity 80, under
resolution 480 yields the duplicated document. -/
theorem single_drum_audicle_duplicated_witness :
    mainOutput [drumHitTrack] 480 = "(*|)" ++ "\n" ++ "(*|)" :=
  single_drum_audicle_duplicated [drumHitTrack] 480 "(*|)" (by decide) (by decide)

/-- C5: with at least two surviving audicles, the document is exactly the
header marker, the opening quote marker, the drum audicles, the melodic
audicles and the closing quote marker, joined by newlines. -/
theorem envelope_line_order (tracks : List (List Msg)) (tpb : Nat)
    (h : 2 ≤ (extract_drum_audicles tracks tpb).length
           + (melodicAudicles tracks tpb).length) :
    mainOutput tracks tpb =
      joinSep "\n" (["`~#", "‘"] ++ extract_drum_audicles tracks tpb
                    ++ melodicAudicles tracks tpb ++ ["‘"]) := by
  have h1 : ¬ (melodicAudicles tracks tpb = [] ∧ extract_drum_audicles tracks tpb = []) := by
    rintro ⟨ha, hb⟩
    rw [ha, hb] at h
    simp at h
  have h2 : ¬ ((melodicAudicles tracks tpb).length
               + (extract_drum_audicles tracks tpb).length = 1) := by omega
  unfold mainOutput assembleOutput
  rw [if_neg h1, if_neg h2]

/-- Witness for C5: one drum hit plus one melodic track. -/
theorem envelope_line_order_witness :
    mainOutput [drumHitTrack, sustainTrack] 480 =
      joinSep "\n" (["`~#", "‘"] ++ extract_drum_audicles [drumHitTrack, sustainTrack] 480
                    ++ melodicAudicles [drumHitTrack, sustainTrack] 480 ++ ["‘"]) :=
  envelope_line_order [drumHitTrack, sustainTrack] 480 (by decide)

theorem dropWhile_replicate_append (c : String) : ∀ (k : Nat) (l : List String),
    (List.replicate k c ++ l).dropWhile (fun t => t == c) =
      l.dropWhile (fun t => t == c) := by
  intro k
  induction k with
  | zero => intro l; rfl
  | succ n ih =>
    intro l
    rw [List.replicate_succ, List.cons_append,
        List.dropWhile_cons_of_pos (by simp)]
    exact ih l

theorem trimTrailing_append_replicate (xs : List String) (c : String) (k : Nat) :
    trimTrailing (xs ++ List.replicate k c) c = trimTrailing xs c := by
  unfold trimTrailing
  rw [List.reverse_append, List.reverse_replicate, dropWhile_replicate_append]

theorem renderTokensAux_replicate_empty : ∀ (k : Nat) (prev : List Nat),
    renderTokensAux prev (List.replicate k []) = List.replicate k "." := by
  intro k
  induction k with
  | zero => intro prev; rfl
  | succ n ih =>
    intro prev
    rw [List.replicate_succ, List.replicate_succ]
    show (if ([] : List Nat) = [] then "." else _) :: renderTokensAux [] (List.replicate n []) = _
    rw [if_pos rfl, ih]

theorem renderTokensAux_append_replicate (k : Nat) :
    ∀ (tl : List (List Nat)) (prev : List Nat),
      renderTokensAux prev (tl ++ List.replicate k []) =
        renderTokensAux prev tl ++ List.replicate k "." := by
  intro tl
  induction tl with
  | nil => intro prev; simpa using renderTokensAux_replicate_empty k prev
  | cons x xs ih =>
    intro prev
    simp only [List.cons_append, renderTokensAux, List.append_eq, ih, List.nil_append]

/-- C7: appending trailing all-silent slots (empty velocity multiset for the
drum grid, empty held set for the melodic grid) never changes the rendered
audicle, because trailing rest tokens are trimmed before rendering; a grid
whose trimmed token list is empty contributes no audicle at all. -/
theorem trailing_silent_slots_invariant (dtl mtl : List (List Nat)) (k : Nat) :
    drumTimelineToAudicle (dtl ++ List.replicate k []) = drumTimelineToAudicle dtl ∧
    melodicTimelineToAudicle (mtl ++ List.replicate k []) = melodicTimelineToAudicle mtl ∧
    (trimTrailing (dtl.map drumSlotToken) "_" = [] → drumTimelineToAudicle dtl = none) ∧
    (trimTrailing (renderTokens mtl) "." = [] → melodicTimelineToAudicle mtl = none) := by
  refine ⟨?_, ?_, ?_, ?_⟩
  · have hkey : trimTrailing ((dtl ++ List.replicate k []).map drumSlotToken) "_"
        = trimTrailing (dtl.map drumSlotToken) "_" := by
      rw [List.map_append, List.map_replicate]
      exact trimTrailing_append_replicate _ _ _
    simp only [drumTimelineToAudicle, hkey]
  · unfold melodicTimelineToAudicle renderTokens
    rw [renderTokensAux_append_replicate, trimTrailing_append_replicate]
  · intro h
    simp [drumTimelineToAudicle, h]
  · intro h
    simp [melodicTimelineToAudicle, h]

/-- Witness for C7 on single-slot all-silent grids with two appended slots. -/
theorem trailing_silent_slots_invariant_witness :
    drumTimelineToAudicle ([[]] ++ List.replicate 2 []) = drumTimelineToAudicle [[]] ∧
    melodicTimelineToAudicle ([[]] ++ List.replicate 2 []) = melodicTimelineToAudicle [[]] ∧
    drumTimelineToAudicle [[]] = none ∧
    melodicTimelineToAudicle [[]] = none := by
  have h := trailing_silent_slots_invariant [[]] [[]] 2
  exact ⟨h.1, h.2.1, h.2.2.1 (by decide), h.2.2.2 (by decide)⟩

theorem sorted_setErase (x : Nat) {l : List Nat} (h : l.Sorted (· < ·)) :
    (setErase x l).Sorted (· < ·) :=
  h.filter _

theorem sorted_applyEvent {S : List Nat} (h : S.Sorted (· < ·)) (e : Ev) :
    (applyEvent S e).Sorted (· < ·) := by
  obtain ⟨t, n, k⟩ := e
  cases k
  · exact sorted_insertSorted n h
  · exact sorted_setErase n h

theorem sorted_foldl_applyEvent : ∀ (l : List Ev) {S : List Nat},
    S.Sorted (· < ·) → (l.foldl applyEvent S).Sorted (· < ·) := by
  intro l
  induction l with
  | nil => intro S h; exact h
  | cons e es ih => intro S h; exact ih (sorted_applyEvent h e)

theorem sorted_sweepSlots (st : Nat) : ∀ (n slot : Nat) (evs : List Ev)
    (active : List Nat), active.Sorted (· < ·) →
    ∀ s ∈ sweepSlots st n slot evs active, s.Sorted (· < ·) := by
  intro n
  induction n with
  | zero => intro slot evs active _ s hs; simp [sweepSlots] at hs
  | succ m ih =>
    intro slot evs active h s hs
    simp only [sweepSlots] at hs
    rcases List.mem_cons.mp hs with rfl | hs2
    · exact sorted_foldl_applyEvent _ h
    · exact ih (slot + 1) _ _ (sorted_foldl_applyEvent _ h) s hs2

/-- C6: the sustain-compression example — one attack of pitch 60 at tick 0
released at tick 480 under resolution 480 renders exactly `*C4 - - -*` — and
the per-slot rendering rule: an empty held set renders `.`, a non-empty set
equal to the previous slot's renders `-`, and any other non-empty set renders
its ascending pitch names joined by `~` (every held set produced by the sweep
is strictly sorted, so the canonical list is the ascending order). -/
theorem sustain_compression_and_render_rule :
    track_to_audicle sustainTrack 480 = some "*C4 - - -*" ∧
    (∀ (prev notes : List Nat) (rest : List (List Nat)),
      renderTokensAux prev (notes :: rest) =
        (if notes = [] then "."
         else if notes = prev then "-"
         else joinSep "~" (notes.map midi_note_to_mida)) :: renderTokensAux notes rest) ∧
    (∀ (st n slot : Nat) (evs : List Ev) (active : List Nat),
      active.Sorted (· < ·) →
      ∀ s ∈ sweepSlots st n slot evs active, s.Sorted (· < ·)) := by
  refine ⟨by decide, ?_, sorted_sweepSlots⟩
  intro prev notes rest
  by_cases h : notes = []
  · simp [renderTokensAux, h]
  · by_cases h2 : notes = prev
    · subst h2
      simp [renderTokensAux, h]
    · simp [renderTokensAux, h, h2]

/-- Witness for C6: the sorted-slot clause applied to the example sweep. -/
theorem sustain_compression_witness : ([60] : List Nat).Sorted (· < ·) :=
  sustain_compression_and_render_rule.2.2 120 5 0 (trackEvents sustainTrack) []
    List.sorted_nil [60] (by decide)

theorem sorted_ext : ∀ {l1 l2 : List Nat}, l1.Sorted (· < ·) → l2.Sorted (· < ·) →
    (∀ a, a ∈ l1 ↔ a ∈ l2) → l1 = l2 := by
  intro l1
  induction l1 with
  | nil =>
    intro l2 _ _ hm
    cases l2 with
    | nil => rfl
    | cons y ys => exact absurd ((hm y).mpr (List.mem_cons_self y ys)) (by simp)
  | cons x xs ih =>
    intro l2 h1 h2 hm
    cases l2 with
    | nil => exact absurd ((hm x).mp (List.mem_cons_self x xs)) (by simp)
    | cons y ys =>
      rw [List.sorted_cons] at h1 h2
      have hxy : x = y := by
        rcases List.mem_cons.mp ((hm x).mp (List.mem_cons_self x xs)) with hx | hx
        · exact hx
        · rcases List.mem_cons.mp ((hm y).mpr (List.mem_cons_self y ys)) with hy | hy
          · exact hy.symm
          · have hlt1 := h2.1 x hx
            have hlt2 := h1.1 y hy
            omega
      subst hxy
      have htail : ∀ a, a ∈ xs ↔ a ∈ ys := by
        intro a
        constructor
        · intro ha
          have hax := h1.1 a ha
          rcases List.mem_cons.mp ((hm a).mp (List.mem_cons.mpr (Or.inr ha))) with h3 | h3
          · omega
          · exact h3
        · intro ha
          have hax := h2.1 a ha
          rcases List.mem_cons.mp ((hm a).mpr (List.mem_cons.mpr (Or.inr ha))) with h3 | h3
          · omega
          · exact h3
      rw [ih h1.2 h2.2 htail]

theorem mem_setErase {a x : Nat} {l : List Nat} :
    a ∈ setErase x l ↔ a ∈ l ∧ a ≠ x := by
  simp [setErase, List.mem_filter]

theorem insert_erase_comm {S : List Nat} (hS : S.Sorted (· < ·)) {a b : Nat}
    (hab : a ≠ b) :
    insertSorted b (setErase a S) = setErase a (insertSorted b S) := by
  apply sorted_ext (sorted_insertSorted b (sorted_setErase a hS))
    (sorted_setErase a (sorted_insertSorted b hS))
  intro m
  rw [mem_insertSorted, mem_setErase, mem_setErase, mem_insertSorted]
  constructor
  · rintro (rfl | ⟨hm, hne⟩)
    · exact ⟨Or.inl rfl, fun h => hab h.symm⟩
    · exact ⟨Or.inr hm, hne⟩
  · rintro ⟨hmb | hm, hne⟩
    · exact Or.inl hmb
    · exact Or.inr ⟨hm, hne⟩

theorem takeWhile_append_of_all {α : Type} {p : α → Bool} :
    ∀ {l1 : List α} (l2 : List α), (∀ x ∈ l1, p x = true) →
      (l1 ++ l2).takeWhile p = l1 ++ l2.takeWhile p := by
  intro l1
  induction l1 with
  | nil => intro l2 _; rfl
  | cons x xs ih =>
    intro l2 h
    rw [List.cons_append, List.takeWhile_cons_of_pos (h x (List.mem_cons_self x xs)),
        ih l2 (fun y hy => h y (List.mem_cons_of_mem x hy)), List.cons_append]

theorem dropWhile_append_of_all {α : Type} {p : α → Bool} :
    ∀ {l1 : List α} (l2 : List α), (∀ x ∈ l1, p x = true) →
      (l1 ++ l2).dropWhile p = l2.dropWhile p := by
  intro l1
  induction l1 with
  | nil => intro l2 _; rfl
  | cons x xs ih =>
    intro l2 h
    rw [List.cons_append, List.dropWhile_cons_of_pos (h x (List.mem_cons_self x xs)),
        ih l2 (fun y hy => h y (List.mem_cons_of_mem x hy))]

theorem takeWhile_append_of_stop {α : Type} {p : α → Bool} :
    ∀ {l1 : List α} (l2 : List α), ¬ (∀ x ∈ l1, p x = true) →
      (l1 ++ l2).takeWhile p = l1.takeWhile p ∧
      (l1 ++ l2).dropWhile p = l1.dropWhile p ++ l2 := by
  intro l1
  induction l1 with
  | nil => intro l2 h; exact absurd (by simp) h
  | cons x xs ih =>
    intro l2 h
    by_cases hx : p x = true
    · have hxs : ¬ ∀ y ∈ xs, p y = true := by
        intro hall
        exact h (fun y hy => by
          rcases List.mem_cons.mp hy with rfl | hy2
          · exact hx
          · exact hall y hy2)
      obtain ⟨ht, hd⟩ := ih l2 hxs
      constructor
      · rw [List.cons_append, List.takeWhile_cons_of_pos hx, ht,
            List.takeWhile_cons_of_pos hx]
      · rw [List.cons_append, List.dropWhile_cons_of_pos hx, hd,
            List.dropWhile_cons_of_pos hx]
    · constructor
      · rw [List.cons_append, List.takeWhile_cons_of_neg hx, List.takeWhile_cons_of_neg hx]
      · rw [List.cons_append, List.dropWhile_cons_of_neg hx, List.dropWhile_cons_of_neg hx,
            List.cons_append]

theorem sweepSlots_succ (st n slot : Nat) (evs : List Ev) (active : List Nat) :
    sweepSlots st (n + 1) slot evs active =
      (evs.takeWhile (fun e => decide (e.time < slot * st + st))).foldl applyEvent active ::
      sweepSlots st n (slot + 1)
        (evs.dropWhile (fun e => decide (e.time < slot * st + st)))
        ((evs.takeWhile (fun e => decide (e.time < slot * st + st))).foldl applyEvent active) :=
  rfl

theorem sweepSlots_swap (st a b T : Nat) (hab : a ≠ b) : ∀ (n slot : Nat)
    (E E2 : List Ev) (S : List Nat), S.Sorted (· < ·) →
    sweepSlots st n slot (E ++ Ev.mk T a EvKind.off :: Ev.mk T b EvKind.on :: E2) S =
    sweepSlots st n slot (E ++ Ev.mk T b EvKind.on :: Ev.mk T a EvKind.off :: E2) S := by
  intro n
  induction n with
  | zero => intro slot E E2 S hS; rfl
  | succ m ih =>
    intro slot E E2 S hS
    rw [sweepSlots_succ, sweepSlots_succ]
    by_cases hall : ∀ x ∈ E, decide (x.time < slot * st + st) = true
    · by_cases hT : T < slot * st + st
      · have hpe : ∀ (nt : Nat) (kd : EvKind),
            decide ((Ev.mk T nt kd).time < slot * st + st) = true :=
          fun nt kd => decide_eq_true hT
        have hallL1 : ∀ x ∈ E ++ [Ev.mk T a EvKind.off, Ev.mk T b EvKind.on],
            decide (x.time < slot * st + st) = true := by
          intro x hx
          rcases List.mem_append.mp hx with hx1 | hx2
          · exact hall x hx1
          · rcases List.mem_cons.mp hx2 with rfl | hx3
            · exact hpe a EvKind.off
            · rcases List.mem_cons.mp hx3 with rfl | hx4
              · exact hpe b EvKind.on
              · simp at hx4
        have hallL2 : ∀ x ∈ E ++ [Ev.mk T b EvKind.on, Ev.mk T a EvKind.off],
            decide (x.time < slot * st + st) = true := by
          intro x hx
          rcases List.mem_append.mp hx with hx1 | hx2
          · exact hall x hx1
          · rcases List.mem_cons.mp hx2 with rfl | hx3
            · exact hpe b EvKind.on
            · rcases List.mem_cons.mp hx3 with rfl | hx4
              · exact hpe a EvKind.off
              · simp at hx4
        rw [show E ++ Ev.mk T a EvKind.off :: Ev.mk T b EvKind.on :: E2
              = (E ++ [Ev.mk T a EvKind.off, Ev.mk T b EvKind.on]) ++ E2 from by simp,
            show E ++ Ev.mk T b EvKind.on :: Ev.mk T a EvKind.off :: E2
              = (E ++ [Ev.mk T b EvKind.on, Ev.mk T a EvKind.off]) ++ E2 from by simp]
        rw [takeWhile_append_of_all E2 hallL1, takeWhile_append_of_all E2 hallL2,
            dropWhile_append_of_all E2 hallL1, dropWhile_append_of_all E2 hallL2]
        rw [List.foldl_append, List.foldl_append, List.foldl_append, List.foldl_append]
        have hkey : List.foldl applyEvent (List.foldl applyEvent S E)
              [Ev.mk T a EvKind.off, Ev.mk T b EvKind.on]
            = List.foldl applyEvent (List.foldl applyEvent S E)
              [Ev.mk T b EvKind.on, Ev.mk T a EvKind.off] := by
          show insertSorted b (setErase a (List.foldl applyEvent S E))
              = setErase a (insertSorted b (List.foldl applyEvent S E))
          exact insert_erase_comm (sorted_foldl_applyEvent E hS) hab
        rw [hkey]
      · have hneT : ¬ (decide (T < slot * st + st) = true) := by simpa using hT
        have ht1 : List.takeWhile (fun e : Ev => decide (e.time < slot * st + st))
            (Ev.mk T a EvKind.off :: Ev.mk T b EvKind.on :: E2) = [] :=
          List.takeWhile_cons_of_neg hneT
        have ht2 : List.takeWhile (fun e : Ev => decide (e.time < slot * st + st))
            (Ev.mk T b EvKind.on :: Ev.mk T a EvKind.off :: E2) = [] :=
          List.takeWhile_cons_of_neg hneT
        have hd1 : List.dropWhile (fun e : Ev => decide (e.time < slot * st + st))
            (Ev.mk T a EvKind.off :: Ev.mk T b EvKind.on :: E2)
            = Ev.mk T a EvKind.off :: Ev.mk T b EvKind.on :: E2 :=
          List.dropWhile_cons_of_neg hneT
        have hd2 : List.dropWhile (fun e : Ev => decide (e.time < slot * st + st))
            (Ev.mk T b EvKind.on :: Ev.mk T a EvKind.off :: E2)
            = Ev.mk T b EvKind.on :: Ev.mk T a EvKind.off :: E2 :=
          List.dropWhile_cons_of_neg hneT
        rw [takeWhile_append_of_all _ hall, takeWhile_append_of_all _ hall,
            dropWhile_append_of_all _ hall, dropWhile_append_of_all _ hall,
            ht1, ht2, hd1, hd2, List.append_nil]
        have htail := ih (slot + 1) [] E2 (List.foldl applyEvent S E)
          (sorted_foldl_applyEvent _ hS)
        simp only [List.nil_append] at htail
        rw [htail]
    · obtain ⟨ht1, hd1⟩ := takeWhile_append_of_stop
        (Ev.mk T a EvKind.off :: Ev.mk T b EvKind.on :: E2) hall
      obtain ⟨ht2, hd2⟩ := takeWhile_append_of_stop
        (Ev.mk T b EvKind.on :: Ev.mk T a EvKind.off :: E2) hall
      rw [ht1, ht2, hd1, hd2]
      rw [ih (slot + 1) _ E2 _ (sorted_foldl_applyEvent _ hS)]

theorem absMsgs_append : ∀ (l1 l2 : List Msg) (t : Nat),
    absMsgs t (l1 ++ l2) = absMsgs t l1 ++ absMsgs (t + deltaSum l1) l2 := by
  intro l1
  induction l1 with
  | nil => intro l2 t; simp [absMsgs, deltaSum]
  | cons m ms ih =>
    intro l2 t
    have hds : t + deltaSum (m :: ms) = t + m.time + deltaSum ms := by
      simp [deltaSum]
      omega
    simp only [List.cons_append, List.append_eq, absMsgs, ih, hds]

theorem trackEvents_swap_pair (pre post : List Msg) (d va vb a b : Nat)
    (c1 c2 : Option Nat) (rT : MsgType)
    (hvb : 0 < vb) (hrel : rT = MsgType.note_off ∨ (rT = MsgType.note_on ∧ va = 0)) :
    trackEvents (pre ++ Msg.mk d rT a va c1 :: Msg.mk 0 MsgType.note_on b vb c2 :: post) =
      trackEvents pre ++ Ev.mk (deltaSum pre + d) a EvKind.off ::
        Ev.mk (deltaSum pre + d) b EvKind.on ::
        (absMsgs (deltaSum pre + d) post).filterMap msgToEv ∧
    trackEvents (pre ++ Msg.mk d MsgType.note_on b vb c2 :: Msg.mk 0 rT a va c1 :: post) =
      trackEvents pre ++ Ev.mk (deltaSum pre + d) b EvKind.on ::
        Ev.mk (deltaSum pre + d) a EvKind.off ::
        (absMsgs (deltaSum pre + d) post).filterMap msgToEv := by
  have hrelEv : ∀ (dd t : Nat), msgToEv (t, Msg.mk dd rT a va c1)
      = some (Ev.mk t a EvKind.off) := by
    intro dd t
    rcases hrel with h | ⟨h, h0⟩
    · subst h
      simp [msgToEv]
    · subst h
      subst h0
      simp [msgToEv]
  have hattEv : ∀ (dd t : Nat), msgToEv (t, Msg.mk dd MsgType.note_on b vb c2)
      = some (Ev.mk t b EvKind.on) := by
    intro dd t
    simp [msgToEv, hvb]
  constructor
  · unfold trackEvents
    rw [absMsgs_append]
    simp only [absMsgs, Nat.zero_add, Nat.add_zero]
    rw [List.filterMap_append, List.filterMap_cons_some (hrelEv d _),
        List.filterMap_cons_some (hattEv 0 _)]
  · unfold trackEvents
    rw [absMsgs_append]
    simp only [absMsgs, Nat.zero_add, Nat.add_zero]
    rw [List.filterMap_append, List.filterMap_cons_some (hattEv d _),
        List.filterMap_cons_some (hrelEv 0 _)]

theorem eventsToAudicle_swap (E E2 : List Ev) (T a b tpb : Nat) (hab : a ≠ b) :
    eventsToAudicle (E ++ Ev.mk T a EvKind.off :: Ev.mk T b EvKind.on :: E2) tpb =
    eventsToAudicle (E ++ Ev.mk T b EvKind.on :: Ev.mk T a EvKind.off :: E2) tpb := by
  have hmap : (E ++ Ev.mk T a EvKind.off :: Ev.mk T b EvKind.on :: E2).map (fun e => e.time)
      = (E ++ Ev.mk T b EvKind.on :: Ev.mk T a EvKind.off :: E2).map (fun e => e.time) := by
    simp
  have hne1 : ¬ (E ++ Ev.mk T a EvKind.off :: Ev.mk T b EvKind.on :: E2 = []) := by simp
  have hne2 : ¬ (E ++ Ev.mk T b EvKind.on :: Ev.mk T a EvKind.off :: E2 = []) := by simp
  simp only [eventsToAudicle]
  rw [if_neg hne1, if_neg hne2, hmap,
      sweepSlots_swap (sixteenth_ticks tpb) a b T hab _ 0 E E2 [] List.sorted_nil]

theorem track_to_audicle_swap (pre post : List Msg) (d va vb a b : Nat)
    (c1 c2 : Option Nat) (rT : MsgType) (tpb : Nat) (hab : a ≠ b) (hvb : 0 < vb)
    (hrel : rT = MsgType.note_off ∨ (rT = MsgType.note_on ∧ va = 0)) :
    track_to_audicle (pre ++ Msg.mk d rT a va c1 :: Msg.mk 0 MsgType.note_on b vb c2 :: post) tpb =
    track_to_audicle (pre ++ Msg.mk d MsgType.note_on b vb c2 :: Msg.mk 0 rT a va c1 :: post) tpb := by
  obtain ⟨h1, h2⟩ := trackEvents_swap_pair pre post d va vb a b c1 c2 rT hvb hrel
  unfold track_to_audicle
  rw [h1, h2]
  exact eventsToAudicle_swap (trackEvents pre)
    ((absMsgs (deltaSum pre + d) post).filterMap msgToEv) (deltaSum pre + d) a b tpb hab

/-- C4 counterexample: the claimed order sensitivity does not exist for
distinct pitches.  The held-pitch structure is a mathematical set and chord
rendering sorts it, so swapping a same-tick release of pitch a with a
same-tick attack of a different pitch b never changes the rendered audicle:
the property orderSensitiveDiffPitch, stating the claim as written, is
false. -/
theorem no_order_sensitivity_for_distinct_pitches : ¬ orderSensitiveDiffPitch := by
  rintro ⟨pre, post, d, va, vb, a, b, c1, c2, rT, tpb, hab, hvb, hrel, hne⟩
  exact hne (track_to_audicle_swap pre post d va vb a b c1 c2 rT tpb hab hvb hrel)

/-- C4 amended: order sensitivity does hold for the same pitch: a same-tick
release-then-attack pair for pitch 60 renders `*C4*`, while the swapped
attack-then-release pair leaves no audicle at all. -/
theorem same_pitch_order_sensitivity :
    track_to_audicle swapTrackA 480 = some "*C4*" ∧
    track_to_audicle swapTrackB 480 = none := by
  decide

end TrackMIDA
